import Mathlib

/-!
Verification development for the flowjax repository.

Shallow embedding of:
* `flowjax/bijections/bnaf.py` — masks, `BlockAutoregressiveLinear`,
  `logmatmulexp`, `_TanhBNAF`, `BlockAutoregressiveNetwork`;
* `flowjax/distributions.py` — the public distribution entry points
  (NaN handling), `AbstractTransformed` (`_log_prob`,
  `_sample_and_log_prob`, `merge_transforms`), `SpecializeCondition`.

Floating point numbers are modelled by real numbers; the value `-inf`,
which genuinely flows through the BNAF log-Jacobian tensors, is modelled
by `(⊥ : EReal)`.  NaN never arises on the executions the theorems below
speak about; where the numerics are about the *presence or absence* of a
NaN (the public distribution wrappers) a small symbolic value domain with
an explicit NaN element is used instead.
-/

noncomputable section

open scoped BigOperators

/-! ## EReal helpers: `jnp.exp` and `jnp.log` on possibly `-inf` values -/

/-- `jnp.exp` on a possibly-infinite log value: `exp(-inf) = 0`.
`⊤` never occurs in the embedded computations (it would be `inf` in
floating point); it is mapped to a junk value. -/
def eexp (e : EReal) : ℝ :=
  if e = ⊥ then 0 else if e = ⊤ then 0 else Real.exp e.toReal

/-- `jnp.log` on a nonnegative real: `log 0 = -inf`.  Negative arguments
(which give NaN in floating point) do not occur at any embedded call
site, since only nonnegative values are logged. -/
def elog (r : ℝ) : EReal :=
  if r = 0 then ⊥ else ((Real.log r : ℝ) : EReal)

/-! ## Tensors and vectors

A `Tens` models a 3-dimensional `(n, r, c)` jax array of log-domain
values; entries outside the recorded dimensions are junk.  A `Vec`
models a 1-dimensional array of floats. -/

/-- A `(n, r, c)`-shaped array of log-domain values. -/
structure Tens where
  n : ℕ
  r : ℕ
  c : ℕ
  entry : ℕ → ℕ → ℕ → EReal

/-- Sum of all entries of a `(n, r, c)` tensor (`logdet.sum()`). -/
def Tens.sumEntries (t : Tens) : EReal :=
  ∑ b ∈ Finset.range t.n, ∑ i ∈ Finset.range t.r, ∑ j ∈ Finset.range t.c,
    t.entry b i j

/-- A 1-dimensional array of floats. -/
structure Vec where
  len : ℕ
  val : ℕ → ℝ

/-! ## `logmatmulexp` (bnaf.py lines 106–113)

```python
def logmatmulexp(x, y):
    x_shift = lax.stop_gradient(jnp.amax(x, -1, keepdims=True))
    y_shift = lax.stop_gradient(jnp.amax(y, -2, keepdims=True))
    xy = jnp.log(jnp.matmul(jnp.exp(x - x_shift), jnp.exp(y - y_shift)))
    return xy + x_shift + y_shift
```

applied to `(n, a, b)` and `(n, b, c)` tensors, where `jnp.matmul`
batches over the leading axis.  `stop_gradient` is the identity on
values. -/

/-- `jnp.amax(x, -1, keepdims=True)`: maximum over the last axis. -/
def amaxLast (t : Tens) (b i : ℕ) : EReal :=
  (Finset.range t.c).sup fun j => t.entry b i j

/-- `jnp.amax(y, -2, keepdims=True)`: maximum over the middle axis. -/
def amaxMid (t : Tens) (b j : ℕ) : EReal :=
  (Finset.range t.r).sup fun k => t.entry b k j

/-- Log-domain batched matrix multiply, `logmatmulexp` from bnaf.py. -/
def logmatmulexp (x y : Tens) : Tens where
  n := x.n
  r := x.r
  c := y.c
  entry := fun b i j =>
    elog (∑ k ∈ Finset.range x.c,
        eexp (x.entry b i k - amaxLast x b i) *
        eexp (y.entry b k j - amaxMid y b j))
      + amaxLast x b i + amaxMid y b j

/-! ## Masks (bnaf.py lines 11–26) -/

/-- `b_diag_mask(block_shape, n_blocks)`: block diagonal mask, the
`(row*n, col*n)` matrix with ones exactly on the `n` diagonal
`(row, col)` blocks. -/
def b_diag_mask (row col n : ℕ) (i j : ℕ) : ℝ :=
  if i < row * n ∧ j < col * n ∧ i / row = j / col then 1 else 0

/-- `b_tril_mask(block_shape, n_blocks)`: ones strictly below the
diagonal blocks.  The source sets, for each block index `b`, the
submatrix of rows `≥ (b+1)*row` and columns `[b*col, (b+1)*col)` to 1;
entry `(i, j)` is hence 1 iff `(j / col + 1) * row ≤ i` (within range). -/
def b_tril_mask (row col n : ℕ) (i j : ℕ) : ℝ :=
  if i < row * n ∧ j < col * n ∧ (j / col + 1) * row ≤ i then 1 else 0

/-! ## `BlockAutoregressiveLinear` (bnaf.py lines 29–103)

The random initialisation (glorot weights, uniform bias and log-scale)
is abstracted by taking the stored raw parameters `W`, `bias`,
`W_log_scale` as data of the structure; the claims quantify over all
parameter values. -/

/-- A `BlockAutoregressiveLinear` layer: block count, block shape
`(row, col)` and the stored raw parameters. -/
structure BlockAutoregressiveLinear where
  n_blocks : ℕ
  row : ℕ
  col : ℕ
  W : ℕ → ℕ → ℝ
  bias : ℕ → ℝ
  W_log_scale : ℕ → ℝ

namespace BlockAutoregressiveLinear

/-- `in_features = block_shape[1] * n_blocks`. -/
def in_features (l : BlockAutoregressiveLinear) : ℕ := l.col * l.n_blocks

/-- `out_features = block_shape[0] * n_blocks`. -/
def out_features (l : BlockAutoregressiveLinear) : ℕ := l.row * l.n_blocks

/-- `W = jnp.exp(self.W) * self.b_diag_mask + self.W * self.b_tril_mask`
(first line of `get_normalised_weights`). -/
def maskedW (l : BlockAutoregressiveLinear) (i j : ℕ) : ℝ :=
  Real.exp (l.W i j) * b_diag_mask l.row l.col l.n_blocks i j
    + l.W i j * b_tril_mask l.row l.col l.n_blocks i j

/-- `W_norms = jnp.linalg.norm(W, axis=-1, keepdims=True)`: Euclidean
norm of row `i` of the masked weight matrix. -/
def rowNorm (l : BlockAutoregressiveLinear) (i : ℕ) : ℝ :=
  Real.sqrt (∑ j ∈ Finset.range l.in_features, (l.maskedW i j) ^ 2)

/-- `get_normalised_weights`:
`jnp.exp(self.W_log_scale) * W / W_norms`. -/
def get_normalised_weights (l : BlockAutoregressiveLinear) (i j : ℕ) : ℝ :=
  Real.exp (l.W_log_scale i) * l.maskedW i j / l.rowNorm i

/-- `__call__`: `y = W @ x + self.bias`, together with the log of the
diagonal-block entries of the normalised weights reshaped to
`(n_blocks, row, col)` (`W[self.b_diag_mask_idxs].reshape(...)`, whose
row-major order puts entry `(b, i, j)` at matrix position
`(b*row + i, b*col + j)`). -/
def call (l : BlockAutoregressiveLinear) (x : Vec) : Vec × Tens :=
  (⟨l.out_features, fun i =>
      (∑ j ∈ Finset.range l.in_features, l.get_normalised_weights i j * x.val j)
        + l.bias i⟩,
   ⟨l.n_blocks, l.row, l.col, fun b i j =>
      elog (l.get_normalised_weights (b * l.row + i) (b * l.col + j))⟩)

end BlockAutoregressiveLinear

/-! ## `_TanhBNAF` (bnaf.py lines 116–133) -/

/-- `jax.nn.softplus`. -/
def softplus (z : ℝ) : ℝ := Real.log (1 + Real.exp z)

/-- The per-coordinate log-derivative of tanh used by `_TanhBNAF`:
`-2 * (x + softplus(-2 * x) - log 2)`. -/
def tanhLogDetVal (t : ℝ) : ℝ :=
  -2 * (t + softplus (-2 * t) - Real.log 2)

/-- `_TanhBNAF.__call__`: elementwise tanh together with the
`(n_blocks, d, d)` log-Jacobian, `-inf` off the diagonal and
`tanhLogDetVal` on the diagonal, block-by-block (`d = len(x) // n_blocks`). -/
def tanhBNAF (n_blocks : ℕ) (x : Vec) : Vec × Tens :=
  let d := x.len / n_blocks
  (⟨x.len, fun i => Real.tanh (x.val i)⟩,
   ⟨n_blocks, d, d, fun b i j =>
      if i = j then ((tanhLogDetVal (x.val (b * d + i)) : ℝ) : EReal) else ⊥⟩)

/-! ## `BlockAutoregressiveNetwork` (bnaf.py lines 136–192) -/

/-- One element of the `layers` list of a `BlockAutoregressiveNetwork`:
either a `BlockAutoregressiveLinear` or a `_TanhBNAF` activation. -/
inductive BanLayer where
  | linear (l : BlockAutoregressiveLinear)
  | tanh (n_blocks : ℕ)

/-- Apply one layer, returning the output and its block log-Jacobian. -/
def BanLayer.call : BanLayer → Vec → Vec × Tens
  | .linear l, x => l.call x
  | .tanh n, x => tanhBNAF n x

/-- A `BlockAutoregressiveNetwork` value: its `layers` list. -/
structure BlockAutoregressiveNetwork where
  layers : List BanLayer

/-- Raw parameters of one linear layer, standing for the random draws
produced from one subkey in `__init__`. -/
structure RawParams where
  W : ℕ → ℕ → ℝ
  bias : ℕ → ℝ
  log_scale : ℕ → ℝ

/-- The `block_sizes` list from `BlockAutoregressiveNetwork.__init__`:
`[(block_size[0], 1), *[block_size] * (n_layers - 2), (1, block_size[1])]`.
Python list repetition with a negative count gives `[]`, matching
truncated subtraction on `ℕ`. -/
def banBlockSizes (block_size : ℕ × ℕ) (n_layers : ℕ) : List (ℕ × ℕ) :=
  (block_size.1, 1) :: (List.replicate (n_layers - 2) block_size ++ [(1, block_size.2)])

/-- The loop body of `__init__`: for each block size append a
`BlockAutoregressiveLinear` (with `n_blocks = dim`) and an activation,
drawing that layer's parameters from `params` at the loop index. -/
def mkBanLayers (dim : ℕ) (params : ℕ → RawParams) :
    List (ℕ × ℕ) → ℕ → List BanLayer
  | [], _ => []
  | s :: rest, idx =>
    BanLayer.linear ⟨dim, s.1, s.2, (params idx).W, (params idx).bias,
        (params idx).log_scale⟩
      :: BanLayer.tanh dim :: mkBanLayers dim params rest (idx + 1)

/-- `BlockAutoregressiveNetwork.__init__`: build a (linear, activation)
pair per block size and drop the trailing activation
(`self.layers = layers[:-1]`). -/
def mkBAN (dim n_layers : ℕ) (block_size : ℕ × ℕ) (params : ℕ → RawParams) :
    BlockAutoregressiveNetwork :=
  ⟨(mkBanLayers dim params (banBlockSizes block_size n_layers) 0).dropLast⟩

/-- Outcome of calling a Python function: either a value is returned or
an exception is raised. -/
inductive PyOutcome (α : Type) where
  | returns (val : α)
  | raises (exc : String)
deriving DecidableEq

/-- `BlockAutoregressiveNetwork.__init__` as a fallible call: the
constructor body contains no `raise` and no validation, so it returns
normally on every input. -/
def banConstructOutcome (dim n_layers : ℕ) (block_size : ℕ × ℕ)
    (params : ℕ → RawParams) : PyOutcome BlockAutoregressiveNetwork :=
  .returns (mkBAN dim n_layers block_size params)

namespace BlockAutoregressiveNetwork

/-- `transform`: feed `x` through each layer, keeping only outputs. -/
def transform (b : BlockAutoregressiveNetwork) (x : Vec) : Vec :=
  b.layers.foldl (fun y l => (l.call y).1) x

/-- The loop of `transform_and_log_abs_det_jacobian`: thread the value
through the layers while collecting every block log-Jacobian tensor in
forward order. -/
def banForward : List BanLayer → Vec → Vec × List Tens
  | [], y => (y, [])
  | l :: ls, y =>
    let r := l.call y
    let rest := banForward ls r.1
    (rest.1, r.2 :: rest.2)

/-- The log-determinant fold of `transform_and_log_abs_det_jacobian`:
`logdet = L[-1]; for ld in reversed(L[:-1]): logdet = logmatmulexp(logdet, ld)`.
The `[]` case stands for the `IndexError` Python would raise; it never
occurs for a constructed network. -/
def foldLogDet (L : List Tens) : Tens :=
  match L.getLast? with
  | none => ⟨0, 0, 0, fun _ _ _ => ⊥⟩
  | some last => (L.dropLast.reverse).foldl logmatmulexp last

/-- `transform_and_log_abs_det_jacobian` (bnaf.py lines 173–184). -/
def transform_and_log_abs_det_jacobian (b : BlockAutoregressiveNetwork)
    (x : Vec) : Vec × EReal :=
  let r := banForward b.layers x
  (r.1, (foldLogDet r.2).sumEntries)

/-- Python objects relevant to `inverse`. -/
inductive PyObject where
  | notImplementedErrorObj (msg : String)
deriving DecidableEq

/-- `inverse` (bnaf.py lines 186–191): the body is
`return NotImplementedError("...")` — it *returns* the exception object
as an ordinary value; no exception is raised. -/
def inverse (_b : BlockAutoregressiveNetwork) (_args : List Vec) :
    PyOutcome PyObject :=
  .returns (.notImplementedErrorObj
    "\n        This transform would require numerical methods for inversion..\n        ")

end BlockAutoregressiveNetwork

/-! ## Spec-side restatement of the collected Jacobian list (for C1) -/

/-- The successive inputs seen by each layer when feeding `x` through
the list in order. -/
def statesAlong : List BanLayer → Vec → List Vec
  | [], _ => []
  | l :: ls, y => y :: statesAlong ls (l.call y).1

/-- The block log-Jacobian tensors of every layer and activation, in
forward order: layer `i` applied to the `i`-th intermediate state. -/
def jacobiansAlong (ls : List BanLayer) (x : Vec) : List Tens :=
  List.zipWith (fun l y => (l.call y).2) ls (statesAlong ls x)

/-- Real-entried tensor, for stating properties of `logmatmulexp` on
finite (never `-inf`) inputs. -/
def Tens.ofRealFn (n r c : ℕ) (f : ℕ → ℕ → ℕ → ℝ) : Tens :=
  ⟨n, r, c, fun b i j => ((f b i j : ℝ) : EReal)⟩

end

/-! ## NaN model of the public distribution entry points (distributions.py)

For the claims about NaN handling only the *presence* of a NaN matters,
so log-probability values are modelled symbolically: NaN, `-inf`, or a
finite value. -/

/-- A floating-point log-probability value, symbolically. -/
inductive FVal where
  | nan
  | neginf
  | fin (q : ℚ)
deriving DecidableEq

/-- `jnp.isnan`. -/
def FVal.isnan : FVal → Bool
  | .nan => true
  | _ => false

/-- `jnp.where(jnp.isnan(lps), -jnp.inf, lps)` on one value. -/
def whereNanNegInf (v : FVal) : FVal :=
  if v.isnan then .neginf else v

/-- A random key. -/
abbrev Key : Type := ℕ

/-- A distribution in the NaN model: the unbatched private methods
`_log_prob`, `_sample`, `_sample_and_log_prob` of
`AbstractDistribution` (the last one may be overridden, e.g. by
`AbstractTransformed`, so it is stored separately). -/
structure NanDist (X : Type) where
  raw_log_prob : X → FVal
  raw_sample : Key → X
  raw_sample_and_log_prob : Key → X × FVal

/-- A base distribution, with the default
`_sample_and_log_prob(key) = (x, _log_prob(x))` where `x = _sample(key)`
(distributions.py lines 72–75). -/
def mkNanBaseDist {X : Type} (lp : X → FVal) (s : Key → X) : NanDist X :=
  ⟨lp, s, fun k => (s k, lp (s k))⟩

namespace NanDist

/-- Public `log_prob` (distributions.py lines 77–93), on one unbatched
point: evaluate `_log_prob` and map NaN to `-inf`. -/
def log_prob {X : Type} (d : NanDist X) (x : X) : FVal :=
  whereNanNegInf (d.raw_log_prob x)

/-- Public `sample` (distributions.py lines 95–169), on one key. -/
def sample {X : Type} (d : NanDist X) (k : Key) : X :=
  d.raw_sample k

/-- Public `sample_and_log_prob` (distributions.py lines 171–192), on
one key: the vectorized `_sample_and_log_prob` with *no* NaN mapping. -/
def sample_and_log_prob {X : Type} (d : NanDist X) (k : Key) : X × FVal :=
  d.raw_sample_and_log_prob k

end NanDist

/-- A distribution whose density is NaN everywhere (e.g. evaluated out
of support). -/
def nanDist : NanDist Unit := mkNanBaseDist (fun _ => .nan) (fun _ => ())

/-! ## Real-valued model of bijections and transformed distributions

Used for the claims about `AbstractTransformed` and `merge_transforms`.
`X` is the sample space, `C` the conditioning space. -/

/-- A leaf bijection: the four capabilities of the bijection protocol. -/
structure LeafBij (X C : Type) where
  transform : X → C → X
  inverse : X → C → X
  transform_and_log_det : X → C → X × ℝ
  inverse_and_log_det : X → C → X × ℝ

/-- A bijection: a leaf, or a `Chain` of bijections. -/
inductive Bij (X C : Type) where
  | leaf (l : LeafBij X C)
  | chain (children : List (Bij X C))

mutual

/-- Modelled from the spec: `Chain.transform` applies each bijection in
sequence (`flowjax/bijections` is not under src/). -/
def Bij.transform {X C : Type} : Bij X C → X → C → X
  | .leaf l, x, c => l.transform x c
  | .chain bs, x, c => chainTransform bs x c

/-- Sequential application of a list of bijections. -/
def chainTransform {X C : Type} : List (Bij X C) → X → C → X
  | [], x, _ => x
  | b :: bs, x, c => chainTransform bs (b.transform x c) c

end

mutual

/-- Modelled from the spec: `Chain.transform_and_log_det` applies each
bijection in sequence and sums the log-determinants. -/
def Bij.transform_and_log_det {X C : Type} : Bij X C → X → C → X × ℝ
  | .leaf l, x, c => l.transform_and_log_det x c
  | .chain bs, x, c => chainTLD bs x c

/-- Sequential `transform_and_log_det` over a list, summing log-dets. -/
def chainTLD {X C : Type} : List (Bij X C) → X → C → X × ℝ
  | [], x, _ => (x, 0)
  | b :: bs, x, c =>
    let r := b.transform_and_log_det x c
    let rest := chainTLD bs r.1 c
    (rest.1, r.2 + rest.2)

end

mutual

/-- Modelled from the spec: `Chain.inverse_and_log_det` applies the
bijections' inverses in reverse order and sums the log-determinants. -/
def Bij.inverse_and_log_det {X C : Type} : Bij X C → X → C → X × ℝ
  | .leaf l, y, c => l.inverse_and_log_det y c
  | .chain bs, y, c => chainILD bs y c

/-- Reverse-order `inverse_and_log_det` over a list: invert the tail of
the chain first, then the head. -/
def chainILD {X C : Type} : List (Bij X C) → X → C → X × ℝ
  | [], y, _ => (y, 0)
  | b :: bs, y, c =>
    let rest := chainILD bs y c
    let r := b.inverse_and_log_det rest.1 c
    (r.1, rest.2 + r.2)

end

mutual

/-- Flatten one bijection to a list of non-chain bijections. -/
def flattenBij {X C : Type} : Bij X C → List (Bij X C)
  | .leaf l => [.leaf l]
  | .chain bs => flattenList bs

/-- Flatten each element of a list of bijections and concatenate. -/
def flattenList {X C : Type} : List (Bij X C) → List (Bij X C)
  | [] => []
  | b :: bs => flattenBij b ++ flattenList bs

end

/-- Modelled from the spec: `merge_chains` splices nested `Chain`s into
one flat sequence (a semantics-preserving optimisation;
`flowjax/bijections` is not under src/). -/
def Bij.merge_chains {X C : Type} : Bij X C → Bij X C
  | .leaf l => .leaf l
  | .chain bs => .chain (flattenList bs)

/-- A base (non-transformed) distribution: unbatched `_log_prob` and
`_sample`. -/
structure BaseFlowDist (X C : Type) where
  raw_log_prob : X → C → ℝ
  raw_sample : Key → C → X

/-- A distribution: a base distribution or a `Transformed` distribution
(`base_dist`, `bijection`). -/
inductive FlowDist (X C : Type) where
  | base (d : BaseFlowDist X C)
  | transformed (base_dist : FlowDist X C) (bijection : Bij X C)

namespace FlowDist

/-- `_log_prob`: for `AbstractTransformed` (distributions.py lines
271–274), pull back through the inverse and add the log-determinant. -/
def log_prob {X C : Type} : FlowDist X C → X → C → ℝ
  | .base d, x, c => d.raw_log_prob x c
  | .transformed b j, x, c =>
    let zld := j.inverse_and_log_det x c
    b.log_prob zld.1 c + zld.2

/-- `_sample`: for `AbstractTransformed` (lines 276–278), sample the
base and push through the forward bijection. -/
def sample {X C : Type} : FlowDist X C → Key → C → X
  | .base d, k, c => d.raw_sample k c
  | .transformed b j, k, c => j.transform (b.sample k c) c

/-- `_sample_and_log_prob`: the `AbstractDistribution` default for base
distributions (lines 72–75), and the `AbstractTransformed` override
(lines 280–291) which avoids the inverse pass. -/
def sample_and_log_prob {X C : Type} : FlowDist X C → Key → C → X × ℝ
  | .base d, k, c => (d.raw_sample k c, d.raw_log_prob (d.raw_sample k c) c)
  | .transformed b j, k, c =>
    let zl := b.sample_and_log_prob k c
    let yf := j.transform_and_log_det zl.1 c
    (yf.1, zl.2 - yf.2)

/-- Is the distribution a `Transformed` instance? -/
def isT {X C : Type} : FlowDist X C → Bool
  | .base _ => false
  | .transformed _ _ => true

/-- Does the distribution have a non-transformed base (vacuously true
for base distributions)? -/
def baseNotT {X C : Type} : FlowDist X C → Bool
  | .base _ => true
  | .transformed bd _ => !bd.isT

/-- The `while` loop of `merge_transforms` (distributions.py lines
318–320): descend through nested transformed distributions, appending
each bijection, returning the collected list and the final base. -/
def collectLoop {X C : Type} : FlowDist X C → List (Bij X C) →
    List (Bij X C) × FlowDist X C
  | .transformed bd j, acc => collectLoop bd (acc ++ [j])
  | d, acc => (acc, d)

/-- `merge_transforms` (distributions.py lines 307–322): if the base is
not transformed return `self`; otherwise collect the bijections outer
to inner, build `Chain(list(reversed(bijections))).merge_chains()` and
wrap the innermost base with it. -/
def merge_transforms {X C : Type} : FlowDist X C → FlowDist X C
  | .base d => .base d
  | .transformed (.base bd) j => .transformed (.base bd) j
  | .transformed (.transformed bd' j') j =>
    let r := collectLoop (FlowDist.transformed bd' j') [j]
    .transformed r.2 ((Bij.chain r.1.reverse).merge_chains)

end FlowDist

/-! ## `SpecializeCondition.__init__` (distributions.py lines 758–774) -/

/-- The part of a distribution `SpecializeCondition` reads. -/
structure DistStub where
  shape : List ℕ
  cond_shape : Option (List ℕ)

/-- A condition array (only its shape matters here). -/
structure CondArray where
  shape : List ℕ

/-- Python exceptions raised by the constructor. -/
inductive PyErr where
  | attributeError (attr : String)
  | valueError (msg : String)
deriving DecidableEq

/-- Attribute state of `self` during `__init__`: every field starts
unassigned. -/
structure PartialSelf where
  dist : Option DistStub
  condition' : Option CondArray
  shape : Option (List ℕ)
  stop_gradient : Option Bool

/-- Reading `self.<attr>`: an unassigned attribute raises
`AttributeError`. -/
def readAttr {α : Type} (v : Option α) (attr : String) : Except PyErr α :=
  match v with
  | none => .error (.attributeError attr)
  | some a => .ok a

/-- A fully constructed `SpecializeCondition`. -/
structure SpecializeCondition where
  dist : DistStub
  condition' : CondArray
  shape : List ℕ
  stop_gradient : Bool

/-- `SpecializeCondition.__init__`, step by step in source order:
convert `condition` (`arraylike_to_array` is the identity on arrays),
then evaluate `if self.dist.cond_shape != condition.shape` — which reads
`self.dist` *before* any assignment to it — then perform the four
assignments. -/
def specializeConditionInit (dist : DistStub) (condition : CondArray)
    (stop_gradient : Bool) : Except PyErr SpecializeCondition := do
  let self : PartialSelf := ⟨none, none, none, none⟩
  let condition := condition
  let selfDist ← readAttr self.dist "dist"
  if selfDist.cond_shape ≠ some condition.shape then
    throw (.valueError "Expected condition shape")
  let self := { self with dist := some dist }
  let self := { self with condition' := some condition }
  let self := { self with shape := some dist.shape }
  let self := { self with stop_gradient := some stop_gradient }
  match self.dist, self.condition', self.shape, self.stop_gradient with
  | some d, some co, some s, some g => pure ⟨d, co, s, g⟩
  | _, _, _, _ => throw (.attributeError "dist")

/-! # Theorems -/

/-! ## C1: `transform_and_log_abs_det_jacobian` -/

/-- The value component of the forward collection loop is the plain
`transform` fold. -/
theorem banForward_fst (ls : List BanLayer) (y : Vec) :
    (BlockAutoregressiveNetwork.banForward ls y).1
      = ls.foldl (fun v l => (l.call v).1) y := by
  induction ls generalizing y with
  | nil => rfl
  | cons l ls ih => simp [BlockAutoregressiveNetwork.banForward, ih]

/-- The tensors collected by the forward loop are exactly the block
log-Jacobians of each layer at its intermediate input, in forward order. -/
theorem banForward_snd (ls : List BanLayer) (y : Vec) :
    (BlockAutoregressiveNetwork.banForward ls y).2 = jacobiansAlong ls y := by
  induction ls generalizing y with
  | nil => rfl
  | cons l ls ih => simp [BlockAutoregressiveNetwork.banForward, jacobiansAlong,
      statesAlong, ih]

/-- C1: `transform_and_log_abs_det_jacobian(x)` returns the result of
passing `x` through every layer in order, together with the scalar
log-determinant obtained by collecting each layer's and activation's
block log-Jacobian tensor in forward order, folding them right-to-left
with `logmatmulexp` starting from the last collected tensor
(`foldLogDet`), and summing all entries of the resulting tensor; the
returned output equals `transform(x)`. -/
theorem c1_transform_and_log_abs_det_jacobian_correct
    (b : BlockAutoregressiveNetwork) (x : Vec) :
    b.transform_and_log_abs_det_jacobian x
      = (b.transform x,
         (BlockAutoregressiveNetwork.foldLogDet (jacobiansAlong b.layers x)).sumEntries) := by
  show (let r := BlockAutoregressiveNetwork.banForward b.layers x;
      (r.1, (BlockAutoregressiveNetwork.foldLogDet r.2).sumEntries)) = _
  simp only [banForward_fst, banForward_snd]
  rfl

/-! ## C2: `inverse` returns (rather than raises) a `NotImplementedError` -/

/-- C2 (code bug): for every network and argument list, `inverse` returns
a `NotImplementedError` *object* as its ordinary return value; no
exception is raised by the call. -/
theorem c2_inverse_returns_error_object
    (b : BlockAutoregressiveNetwork) (args : List Vec) :
    b.inverse args
      = PyOutcome.returns (.notImplementedErrorObj
          "\n        This transform would require numerical methods for inversion..\n        ") :=
  rfl

/-! ## C3: NaN handling of the public entry points -/

/-- C3 counterexample: for a distribution whose unbatched `_log_prob`
yields NaN, the public `sample_and_log_prob` returns a NaN
log-probability (no NaN-to-`-inf` mapping is applied there). -/
theorem c3_sample_and_log_prob_nan :
    (nanDist.sample_and_log_prob 0).2 = FVal.nan := rfl

/-- C3 (amended): the public `log_prob` never returns NaN (any NaN is
mapped to `-inf`), but `sample_and_log_prob` returns the underlying
sample/log-probability pair unmodified, so its log-probability is NaN
whenever the underlying one is. -/
theorem c3_nan_handling {X : Type} (d : NanDist X) (x : X) (k : Key) :
    (d.log_prob x).isnan = false
      ∧ d.sample_and_log_prob k = d.raw_sample_and_log_prob k := by
  refine ⟨?_, rfl⟩
  cases h : d.raw_log_prob x <;>
    simp [NanDist.log_prob, whereNanNegInf, FVal.isnan, h]

/-! ## C9: no `n_layers < 2` validation -/

/-- All-zero raw parameters, standing for one concrete random draw. -/
def zeroParams : ℕ → RawParams := fun _ => ⟨fun _ _ => 0, fun _ => 0, fun _ => 0⟩

/-- C9 counterexample: constructing with `n_layers = 1 < 2` does not fail:
the constructor returns normally, and the network built has the entry
and exit linear layers with one activation between them (3 layers). -/
theorem c9_construct_one_layer_succeeds :
    banConstructOutcome 4 1 (8, 8) zeroParams
        = PyOutcome.returns (mkBAN 4 1 (8, 8) zeroParams)
      ∧ (mkBAN 4 1 (8, 8) zeroParams).layers.length = 3 :=
  ⟨rfl, rfl⟩

/-- C9 (amended): `__init__` performs no validation of `n_layers`; for
every `n_layers < 2` construction succeeds and yields exactly the
network built for `n_layers = 2` (entry and exit block shapes only). -/
theorem c9_no_validation_low_n_layers (dim n_layers : ℕ) (block_size : ℕ × ℕ)
    (params : ℕ → RawParams) (h : n_layers < 2) :
    banConstructOutcome dim n_layers block_size params
      = banConstructOutcome dim 2 block_size params := by
  have h2 : n_layers - 2 = 0 := by omega
  simp [banConstructOutcome, mkBAN, banBlockSizes, h2]

/-- Witness for the amended C9 theorem at `n_layers = 1`. -/
theorem c9_no_validation_low_n_layers_witness :
    1 < 2 ∧ banConstructOutcome 4 1 (8, 8) zeroParams
        = banConstructOutcome 4 2 (8, 8) zeroParams :=
  ⟨by decide, c9_no_validation_low_n_layers 4 1 (8, 8) zeroParams (by decide)⟩

/-! ## C10: `SpecializeCondition.__init__` always fails -/

/-- C10: for every distribution, condition array and `stop_gradient`
flag, `SpecializeCondition.__init__` raises `AttributeError` at its
validation check, which reads `self.dist` before the `dist` attribute
has been assigned; consequently no instance is ever created. -/
theorem c10_specialize_condition_init_always_fails
    (dist : DistStub) (condition : CondArray) (sg : Bool) :
    specializeConditionInit dist condition sg
      = .error (.attributeError "dist") := rfl

/-! ## C4: masked entries of the normalised weights are exactly zero -/

/-- C4: for every raw parameter setting, the normalised weight matrix
has exactly zero at every entry outside the union of the diagonal
blocks and the strictly-lower blocks, i.e. wherever the block row index
is less than the block column index. -/
theorem c4_normalised_weights_masked (l : BlockAutoregressiveLinear) (i j : ℕ)
    (h : i / l.row < j / l.col) :
    l.get_normalised_weights i j = 0 := by
  have hd : b_diag_mask l.row l.col l.n_blocks i j = 0 := by
    unfold b_diag_mask
    rw [if_neg]
    rintro ⟨-, -, he⟩
    omega
  have ht : b_tril_mask l.row l.col l.n_blocks i j = 0 := by
    unfold b_tril_mask
    rw [if_neg]
    rintro ⟨hi, -, hle⟩
    have hrow : 0 < l.row := by
      rcases Nat.eq_zero_or_pos l.row with h0 | hp
      · rw [h0] at hi; simp at hi
      · exact hp
    have h1 : j / l.col + 1 ≤ i / l.row := (Nat.le_div_iff_mul_le hrow).2 hle
    omega
  simp [BlockAutoregressiveLinear.get_normalised_weights,
    BlockAutoregressiveLinear.maskedW, hd, ht]

/-- A concrete layer (2 blocks of shape (1, 1), zero raw parameters). -/
def witLinear : BlockAutoregressiveLinear :=
  ⟨2, 1, 1, fun _ _ => 0, fun _ => 0, fun _ => 0⟩

/-- Witness for C4 at the strictly-upper entry (0, 1) of a 2×2 layer. -/
theorem c4_normalised_weights_masked_witness :
    (0 : ℕ) / witLinear.row < 1 / witLinear.col
      ∧ witLinear.get_normalised_weights 0 1 = 0 :=
  ⟨by decide, c4_normalised_weights_masked witLinear 0 1 (by decide)⟩

/-! ## C6: the `_TanhBNAF` activation -/

/-- The softplus form used by `_TanhBNAF` equals the log-derivative of
tanh: `-2 * (t + softplus(-2t) - log 2) = log (1 - tanh t ^ 2)`. -/
theorem tanhLogDetVal_eq (t : ℝ) :
    tanhLogDetVal t = Real.log (1 - Real.tanh t ^ 2) := by
  have hc : (0 : ℝ) < Real.cosh t := Real.cosh_pos t
  have h1 : 1 - Real.tanh t ^ 2 = (Real.cosh t ^ 2)⁻¹ := by
    have hcs : Real.cosh t ^ 2 - Real.sinh t ^ 2 = 1 := Real.cosh_sq_sub_sinh_sq t
    rw [Real.tanh_eq_sinh_div_cosh, div_pow]
    field_simp
  have h2 : Real.log (1 - Real.tanh t ^ 2) = -2 * Real.log (Real.cosh t) := by
    rw [h1, Real.log_inv, Real.log_pow]
    push_cast
    ring
  have he : Real.exp t * (1 + Real.exp (-2 * t)) = Real.exp t + Real.exp (-t) := by
    rw [mul_add, mul_one, ← Real.exp_add]
    ring_nf
  have hx : (0 : ℝ) < 1 + Real.exp (-2 * t) := by positivity
  have h4 : Real.log (Real.exp t + Real.exp (-t)) = t + softplus (-2 * t) := by
    rw [← he, Real.log_mul (Real.exp_ne_zero t) (ne_of_gt hx), Real.log_exp, softplus]
  have h3 : t + softplus (-2 * t) - Real.log 2 = Real.log (Real.cosh t) := by
    rw [Real.cosh_eq, Real.log_div (by positivity) two_ne_zero, h4]
  rw [h2, tanhLogDetVal, h3]

/-- C6: `_TanhBNAF` returns `(tanh(x), logJ)` where `logJ` has shape
`(n_blocks, d, d)` with `d = len(x) / n_blocks`, equals `-inf` at every
off-diagonal entry, and its diagonal entry for coordinate `b*d + i`
equals `log (1 - tanh(x_(b*d+i))^2)`, computed via the softplus
identity. -/
theorem c6_tanhBNAF_correct (n_blocks : ℕ) (x : Vec) (b i j : ℕ) :
    (tanhBNAF n_blocks x).1 = ⟨x.len, fun t => Real.tanh (x.val t)⟩
    ∧ (tanhBNAF n_blocks x).2.n = n_blocks
    ∧ (tanhBNAF n_blocks x).2.r = x.len / n_blocks
    ∧ (tanhBNAF n_blocks x).2.c = x.len / n_blocks
    ∧ (tanhBNAF n_blocks x).2.entry b i j
        = (if i = j
           then ((Real.log (1 - Real.tanh (x.val (b * (x.len / n_blocks) + i)) ^ 2) : ℝ) : EReal)
           else ⊥) := by
  refine ⟨rfl, rfl, rfl, rfl, ?_⟩
  by_cases h : i = j <;> simp [tanhBNAF, h, tanhLogDetVal_eq]

/-! ## C5: `logmatmulexp` computes `log(exp x @ exp y)` -/

/-- `eexp` on a finite (real) log value is `Real.exp`. -/
theorem eexp_coe (t : ℝ) : eexp ((t : ℝ) : EReal) = Real.exp t := by
  simp [eexp, EReal.coe_ne_bot, EReal.coe_ne_top, EReal.toReal_coe]

/-- A maximum of finitely many (at least one) finite values is finite. -/
theorem sup_range_coe_eq (m : ℕ) (hm : 0 < m) (f : ℕ → ℝ) :
    ∃ M : ℝ, ((Finset.range m).sup fun k => ((f k : ℝ) : EReal)) = (M : EReal) := by
  have H : (Finset.range m).Nonempty := Finset.nonempty_range_iff.2 (by omega)
  refine ⟨(Finset.range m).sup' H f, ?_⟩
  rw [← Finset.sup'_eq_sup H]
  exact (Finset.comp_sup'_eq_sup'_comp H (fun r : ℝ => (r : EReal))
    (fun x y => EReal.coe_strictMono.monotone.map_max)).symm

/-- C5: on real-valued (finite) tensors of compatible shapes with a
nonempty contraction dimension, every entry of `logmatmulexp x y` is the
log of the corresponding entry of the matrix product `exp x @ exp y`;
in particular `exp (logmatmulexp (log A, log B)) = A @ B` for positive
`A`, `B`, and the result has shape `(n, r, c)`. -/
theorem c5_logmatmulexp_eq_log_matmul_exp (n r m c : ℕ) (f g : ℕ → ℕ → ℕ → ℝ)
    (hm : 0 < m) (b i j : ℕ) :
    (logmatmulexp (Tens.ofRealFn n r m f) (Tens.ofRealFn n m c g)).entry b i j
        = ((Real.log (∑ k ∈ Finset.range m,
            Real.exp (f b i k) * Real.exp (g b k j)) : ℝ) : EReal)
      ∧ (logmatmulexp (Tens.ofRealFn n r m f) (Tens.ofRealFn n m c g)).n = n
      ∧ (logmatmulexp (Tens.ofRealFn n r m f) (Tens.ofRealFn n m c g)).r = r
      ∧ (logmatmulexp (Tens.ofRealFn n r m f) (Tens.ofRealFn n m c g)).c = c := by
  refine ⟨?_, rfl, rfl, rfl⟩
  obtain ⟨M1, hM1⟩ := sup_range_coe_eq m hm (fun k => f b i k)
  obtain ⟨M2, hM2⟩ := sup_range_coe_eq m hm (fun k => g b k j)
  have hx : amaxLast (Tens.ofRealFn n r m f) b i = (M1 : EReal) := hM1
  have hy : amaxMid (Tens.ofRealFn n m c g) b j = (M2 : EReal) := hM2
  have hsum : (∑ k ∈ Finset.range m,
      eexp (((f b i k : ℝ) : EReal) - (M1 : EReal)) *
      eexp (((g b k j : ℝ) : EReal) - (M2 : EReal)))
      = (∑ k ∈ Finset.range m, Real.exp (f b i k) * Real.exp (g b k j))
          / (Real.exp M1 * Real.exp M2) := by
    rw [Finset.sum_div]
    refine Finset.sum_congr rfl fun k _ => ?_
    rw [← EReal.coe_sub, ← EReal.coe_sub, eexp_coe, eexp_coe, Real.exp_sub,
      Real.exp_sub, div_mul_div_comm]
  have hpos : (0 : ℝ) < ∑ k ∈ Finset.range m,
      Real.exp (f b i k) * Real.exp (g b k j) :=
    Finset.sum_pos (fun k _ => by positivity) (Finset.nonempty_range_iff.2 (by omega))
  have hq : (0 : ℝ) < (∑ k ∈ Finset.range m,
      Real.exp (f b i k) * Real.exp (g b k j)) / (Real.exp M1 * Real.exp M2) := by
    positivity
  show elog (∑ k ∈ Finset.range m,
      eexp ((Tens.ofRealFn n r m f).entry b i k - amaxLast (Tens.ofRealFn n r m f) b i) *
      eexp ((Tens.ofRealFn n m c g).entry b k j - amaxMid (Tens.ofRealFn n m c g) b j))
      + amaxLast (Tens.ofRealFn n r m f) b i + amaxMid (Tens.ofRealFn n m c g) b j = _
  rw [hx, hy]
  have hentries : ∀ k, (Tens.ofRealFn n r m f).entry b i k = ((f b i k : ℝ) : EReal) :=
    fun k => rfl
  simp only [Tens.ofRealFn] at *
  rw [hsum, elog, if_neg (ne_of_gt hq), ← EReal.coe_add, ← EReal.coe_add]
  congr 1
  rw [Real.log_div (ne_of_gt hpos) (by positivity),
    Real.log_mul (Real.exp_ne_zero M1) (Real.exp_ne_zero M2), Real.log_exp, Real.log_exp]
  ring

/-- The all-zero entry function. -/
def zf3 : ℕ → ℕ → ℕ → ℝ := fun _ _ _ => 0

/-- Witness for C5 on 1×1×1 tensors. -/
theorem c5_logmatmulexp_witness :
    0 < 1
      ∧ ((logmatmulexp (Tens.ofRealFn 1 1 1 zf3) (Tens.ofRealFn 1 1 1 zf3)).entry 0 0 0
            = ((Real.log (∑ k ∈ Finset.range 1,
                Real.exp (zf3 0 0 k) * Real.exp (zf3 0 0 k)) : ℝ) : EReal)
          ∧ (logmatmulexp (Tens.ofRealFn 1 1 1 zf3) (Tens.ofRealFn 1 1 1 zf3)).n = 1
          ∧ (logmatmulexp (Tens.ofRealFn 1 1 1 zf3) (Tens.ofRealFn 1 1 1 zf3)).r = 1
          ∧ (logmatmulexp (Tens.ofRealFn 1 1 1 zf3) (Tens.ofRealFn 1 1 1 zf3)).c = 1) :=
  ⟨by decide, c5_logmatmulexp_eq_log_matmul_exp 1 1 1 1 zf3 zf3 (by decide) 0 0 0⟩

/-! ## C7/C8: transformed distributions and `merge_transforms` -/

/-- Sequential transform over an appended list. -/
theorem chainTransform_append {X C : Type} (as bs : List (Bij X C)) (x : X) (c : C) :
    chainTransform (as ++ bs) x c = chainTransform bs (chainTransform as x c) c := by
  induction as generalizing x with
  | nil => rfl
  | cons a as ih => simp [chainTransform, ih]

mutual

/-- Flattening a bijection preserves sequential transformation. -/
theorem flattenBij_transform {X C : Type} : ∀ (b : Bij X C) (x : X) (c : C),
    chainTransform (flattenBij b) x c = b.transform x c
  | .leaf l, x, c => by simp [flattenBij, chainTransform, Bij.transform]
  | .chain bs, x, c => by
    simp only [flattenBij, Bij.transform]
    exact flattenList_transform bs x c

/-- Flattening a list of bijections preserves sequential transformation. -/
theorem flattenList_transform {X C : Type} : ∀ (bs : List (Bij X C)) (x : X) (c : C),
    chainTransform (flattenList bs) x c = chainTransform bs x c
  | [], _, _ => rfl
  | b :: bs, x, c => by
    simp only [flattenList, chainTransform]
    rw [chainTransform_append, flattenBij_transform b, flattenList_transform bs]

end

/-- Reverse-order inverse over an appended list: invert the second part
first, then the first, adding log-determinants. -/
theorem chainILD_append {X C : Type} (as bs : List (Bij X C)) (y : X) (c : C) :
    chainILD (as ++ bs) y c
      = ((chainILD as (chainILD bs y c).1 c).1,
         (chainILD bs y c).2 + (chainILD as (chainILD bs y c).1 c).2) := by
  induction as generalizing y with
  | nil => simp [chainILD]
  | cons a as ih => simp [chainILD, ih, add_assoc]

mutual

/-- Flattening a bijection preserves `inverse_and_log_det`. -/
theorem flattenBij_ild {X C : Type} : ∀ (b : Bij X C) (y : X) (c : C),
    chainILD (flattenBij b) y c = b.inverse_and_log_det y c
  | .leaf l, y, c => by simp [flattenBij, chainILD, Bij.inverse_and_log_det]
  | .chain bs, y, c => by
    simp only [flattenBij, Bij.inverse_and_log_det]
    exact flattenList_ild bs y c

/-- Flattening a list of bijections preserves `inverse_and_log_det`. -/
theorem flattenList_ild {X C : Type} : ∀ (bs : List (Bij X C)) (y : X) (c : C),
    chainILD (flattenList bs) y c = chainILD bs y c
  | [], _, _ => rfl
  | b :: bs, y, c => by
    simp only [flattenList]
    rw [chainILD_append, flattenBij_ild b, flattenList_ild bs]
    simp [chainILD]

end

/-- The `while` loop of `merge_transforms` is sound for sampling:
pushing the innermost base sample through the collected (reversed)
bijections equals pushing the current distribution's sample through the
reversed accumulator. -/
theorem collectLoop_sample {X C : Type} :
    ∀ (d : FlowDist X C) (acc : List (Bij X C)) (k : Key) (c : C),
    chainTransform (FlowDist.collectLoop d acc).1.reverse
        ((FlowDist.collectLoop d acc).2.sample k c) c
      = chainTransform acc.reverse (d.sample k c) c
  | .base _, _, _, _ => rfl
  | .transformed bd j, acc, k, c => by
    show chainTransform (FlowDist.collectLoop bd (acc ++ [j])).1.reverse
        ((FlowDist.collectLoop bd (acc ++ [j])).2.sample k c) c = _
    rw [collectLoop_sample bd (acc ++ [j]) k c]
    simp [chainTransform_append, chainTransform, FlowDist.sample]

/-- The `while` loop of `merge_transforms` is sound for densities. -/
theorem collectLoop_log_prob {X C : Type} :
    ∀ (d : FlowDist X C) (acc : List (Bij X C)) (x : X) (c : C),
    (FlowDist.collectLoop d acc).2.log_prob
        (chainILD (FlowDist.collectLoop d acc).1.reverse x c).1 c
        + (chainILD (FlowDist.collectLoop d acc).1.reverse x c).2
      = d.log_prob (chainILD acc.reverse x c).1 c + (chainILD acc.reverse x c).2
  | .base _, _, _, _ => rfl
  | .transformed bd j, acc, x, c => by
    show (FlowDist.collectLoop bd (acc ++ [j])).2.log_prob
        (chainILD (FlowDist.collectLoop bd (acc ++ [j])).1.reverse x c).1 c
        + (chainILD (FlowDist.collectLoop bd (acc ++ [j])).1.reverse x c).2 = _
    rw [collectLoop_log_prob bd (acc ++ [j]) x c]
    simp only [List.reverse_append, List.reverse_singleton, List.singleton_append,
      chainILD, FlowDist.log_prob]
    ring

/-- The `while` loop terminates at a non-transformed distribution. -/
theorem collectLoop_isT {X C : Type} :
    ∀ (d : FlowDist X C) (acc : List (Bij X C)),
    (FlowDist.collectLoop d acc).2.isT = false
  | .base _, _ => rfl
  | .transformed bd j, acc => collectLoop_isT bd (acc ++ [j])

/-- C7: `merge_transforms` on any transformed distribution returns a
transformed distribution whose base is not itself transformed, and whose
`sample` and `log_prob` agree with the nested version on every key,
input and condition (the collected bijections are flattened into one
chain applied inner-first, outer bijection last). -/
theorem c7_merge_transforms_correct {X C : Type} (bd : FlowDist X C) (j : Bij X C) :
    ((FlowDist.transformed bd j).merge_transforms).baseNotT = true
    ∧ (∀ (k : Key) (c : C),
        ((FlowDist.transformed bd j).merge_transforms).sample k c
          = (FlowDist.transformed bd j).sample k c)
    ∧ (∀ (x : X) (c : C),
        ((FlowDist.transformed bd j).merge_transforms).log_prob x c
          = (FlowDist.transformed bd j).log_prob x c) := by
  cases bd with
  | base d => exact ⟨rfl, fun _ _ => rfl, fun _ _ => rfl⟩
  | transformed bd' j' =>
    refine ⟨?_, ?_, ?_⟩
    · simp [FlowDist.merge_transforms, FlowDist.baseNotT, collectLoop_isT]
    · intro k c
      show Bij.transform ((Bij.chain (FlowDist.collectLoop
            (FlowDist.transformed bd' j') [j]).1.reverse).merge_chains)
          ((FlowDist.collectLoop (FlowDist.transformed bd' j') [j]).2.sample k c) c = _
      show chainTransform (flattenList (FlowDist.collectLoop
            (FlowDist.transformed bd' j') [j]).1.reverse)
          ((FlowDist.collectLoop (FlowDist.transformed bd' j') [j]).2.sample k c) c = _
      rw [flattenList_transform, collectLoop_sample]
      simp [chainTransform, FlowDist.sample]
    · intro x c
      show FlowDist.log_prob (.transformed (FlowDist.collectLoop
            (FlowDist.transformed bd' j') [j]).2
            ((Bij.chain (FlowDist.collectLoop
              (FlowDist.transformed bd' j') [j]).1.reverse).merge_chains)) x c = _
      have hL : FlowDist.log_prob (.transformed (FlowDist.collectLoop
            (FlowDist.transformed bd' j') [j]).2
            ((Bij.chain (FlowDist.collectLoop
              (FlowDist.transformed bd' j') [j]).1.reverse).merge_chains)) x c
          = (FlowDist.collectLoop (FlowDist.transformed bd' j') [j]).2.log_prob
              (chainILD (FlowDist.collectLoop
                (FlowDist.transformed bd' j') [j]).1.reverse x c).1 c
            + (chainILD (FlowDist.collectLoop
                (FlowDist.transformed bd' j') [j]).1.reverse x c).2 := by
        show (FlowDist.collectLoop (FlowDist.transformed bd' j') [j]).2.log_prob
            (chainILD (flattenList (FlowDist.collectLoop
              (FlowDist.transformed bd' j') [j]).1.reverse) x c).1 c
            + (chainILD (flattenList (FlowDist.collectLoop
              (FlowDist.transformed bd' j') [j]).1.reverse) x c).2 = _
        rw [flattenList_ild]
      rw [hL, collectLoop_log_prob]
      simp [chainILD, FlowDist.log_prob]

/-- C8: a transformed distribution's `_sample_and_log_prob` draws
`(z, log_p_base)` jointly from the base, computes
`(y, fwd_logdet) = bijection.transform_and_log_det(z, condition)` and
returns `(y, log_p_base - fwd_logdet)`; its result does not depend on
the bijection's inverse data (no inverse pass); and `_log_prob(x)`
equals the base log-probability of the inverse image plus the inverse
log-determinant. -/
theorem c8_transformed_sample_and_log_prob {X C : Type}
    (bd : FlowDist X C) (j : Bij X C) (k : Key) (co : C) (x : X) :
    ((FlowDist.transformed bd j).sample_and_log_prob k co
        = (let zl := bd.sample_and_log_prob k co
           let yf := j.transform_and_log_det zl.1 co
           (yf.1, zl.2 - yf.2)))
    ∧ ((FlowDist.transformed bd j).log_prob x co
        = bd.log_prob (j.inverse_and_log_det x co).1 co
            + (j.inverse_and_log_det x co).2)
    ∧ (∀ (t iv iv2 : X → C → X) (td ild ild2 : X → C → X × ℝ),
        (FlowDist.transformed bd (.leaf ⟨t, iv, td, ild⟩)).sample_and_log_prob k co
          = (FlowDist.transformed bd (.leaf ⟨t, iv2, td, ild2⟩)).sample_and_log_prob k co) :=
  ⟨rfl, rfl, fun _ _ _ _ _ _ => rfl⟩
